import Mathlib

/-!
Verification development for the `dsent` entity-persistence layer (a generic
wrapper around the Google Cloud Datastore client).

The data model and the operations below are a shallow embedding of the Go
source. Pointers to `datastore.Key` (always non-nil where dereferenced) become
an inductive `Key` whose `Parent *Key` field is an `Option Key`; Go's
`(value, error)` returns become pairs with an `Option GoErr` (or `Except`)
component; the external store client (an out-of-scope collaborator) is
represented by oracle parameters giving the outcome of each store primitive;
in-place mutation of an entity through its pointer is rendered by value
passing (a callback that mutates its receiver returns the new value).
-/

/-- Model of the Go `error` values that reach this package: the package's own
sentinels (`ErrKeyChanged`, `ErrUpdateAbort`), the datastore sentinels it
compares against (`datastore.ErrNoSuchEntity`, aliased `ErrNotFound`, and
`datastore.ErrConcurrentTransaction`), `datastore.MultiError` (a slice of
errors), errors wrapping another error (`fmt.Errorf` with `%w`), and opaque
foreign errors. -/
inductive GoErr : Type where
  | keyChanged
  | noSuchEntity
  | concurrentTransaction
  | updateAbort
  | multi (errs : List GoErr)
  | wrapped (msg : String) (inner : GoErr)
  | other (msg : String)

/-- Model of `errors.Is(err, ErrUpdateAbort)` as used at the abort check of
`UpdateTx`: true iff the error is the `ErrUpdateAbort` sentinel or wraps it
through an `Unwrap` chain. -/
def errorsIsUpdateAbort : GoErr → Bool
  | .updateAbort => true
  | .wrapped _ inner => errorsIsUpdateAbort inner
  | _ => false

/-- Model of a non-nil `*datastore.Key`: namespace, kind, numeric ID, name,
and an optional parent pointer (`Parent *Key`; Go `nil` is `none`). -/
inductive Key : Type where
  | mk (Namespace Kind : String) (ID : Int) (Name : String) (Parent : Option Key)

/-- The ancestor chain of a key, leaf first: the (Namespace, Kind, ID, Name)
tuple of each level walking `Parent` pointers to the root. -/
def Key.chain : Key → List (String × String × Int × String)
  | .mk ns k i n none => [(ns, k, i, n)]
  | .mk ns k i n (some p) => (ns, k, i, n) :: p.chain

/-- Number of levels in a key's ancestor chain. -/
def Key.depth : Key → Nat
  | .mk _ _ _ _ none => 1
  | .mk _ _ _ _ (some p) => p.depth + 1

/-- Appends one extra ancestor level (chain) below the root of a key. -/
def Key.addAncestor : Key → Key → Key
  | .mk ns k i n none, anc => .mk ns k i n (some anc)
  | .mk ns k i n (some p), anc => .mk ns k i n (some (p.addAncestor anc))

/-- True iff every level of the key's ancestor chain carries namespace `ns`. -/
def Key.nsUniform (k : Key) (ns : String) : Bool :=
  k.chain.all (fun l => l.1 == ns)

/-- `SetNS` sets the namespace of a key and of all its parent keys. The Go
function mutates the key in place and returns it; the model returns the
updated key. -/
def SetNS : Key → String → Key
  | .mk _ k i n none, ns => .mk ns k i n none
  | .mk _ k i n (some p), ns => .mk ns k i n (some (SetNS p ns))

/-- `cmpKey` compares two datastore keys: walks both chains in lock-step,
comparing Namespace, Kind, ID and Name at each level, and requires both
chains to reach a nil parent at the same step. (In Go this is a method on
`DSEnt`, but the receiver is unused.) -/
def cmpKey : Key → Key → Bool
  | .mk ns k i n p, .mk ns' k' i' n' p' =>
    if ns ≠ ns' then false
    else if k ≠ k' then false
    else if i ≠ i' then false
    else if n ≠ n' then false
    else
      match p, p' with
      | none, none => true
      | none, some _ => false
      | some _, none => false
      | some l, some r => cmpKey l r

/-- Model of `*datastore.PendingKey`: an opaque placeholder returned by a
mutation inside an open transaction, resolvable only through the commit. -/
structure PendingKey : Type where
  token : Nat

/-- The kind of a `*datastore.Mutation` issued by this package
(`NewInsert`, `NewUpdate`, `NewUpsert`). -/
inductive MutOp : Type where
  | insert
  | update
  | upsert

/-- A mutation as built by this package: its kind, target key, and the
entity value captured at the call. -/
structure Mutation (T : Type) where
  op : MutOp
  key : Key
  val : T

/-- The methods of the `Object` interface and the optional
`datastore.KeyLoader` interface for an entity type `T`:
`BuildKey(ns) (*datastore.Key, error)` and, when the type implements the
hook, `LoadKey(*datastore.Key) error` (rendered value-wise: it returns the
mutated receiver alongside the error; `LoadKey = none` models a type that
does not implement `datastore.KeyLoader`). -/
structure ObjectImpl (T : Type) where
  BuildKey : T → String → Except GoErr Key
  LoadKey : Option (T → Key → T × Option GoErr)

/-- The `DSEnt[T]` wrapper state: its namespace and kind strings (the
embedded `*datastore.Client` is replaced by explicit oracle parameters on
each operation). The Go field `namespace` is a Lean keyword and is renamed
`nspace`. -/
structure DSEnt (T : Type) where
  nspace : String
  kind : String

/-- Oracle for the store primitives reached through an open
`*datastore.Transaction`: the outcome of `tx.Get` (the loaded value or an
error), of `tx.GetMulti` (the populated values and an optional error — the
values are returned even on a partial failure because `GetMulti` mutates the
given slice in place), of `tx.Mutate` (pending keys or an error), and of
`tx.DeleteMulti`. -/
structure TxStore (T : Type) where
  txGet : Key → Except GoErr T
  txGetMulti : List Key → List T → List T × Option GoErr
  txMutate : List (Mutation T) → Except GoErr (List PendingKey)
  txDeleteMulti : List Key → Option GoErr

/-- `buildKeys` builds datastore keys for a slice of objects by calling each
object's `BuildKey(db.namespace)` in order, stopping at the first error. -/
def buildKeys {T : Type} (db : DSEnt T) (impl : ObjectImpl T) : List T → Except GoErr (List Key)
  | [] => .ok []
  | o :: rest =>
    match impl.BuildKey o db.nspace with
    | .error e => .error e
    | .ok k =>
      match buildKeys db impl rest with
      | .error e => .error e
      | .ok ks => .ok (k :: ks)

/-- `ResolveKey` resolves the key of an object: if the object's type
implements the optional `datastore.KeyLoader` hook, it calls `LoadKey(key)`
and returns its outcome; otherwise it is a no-op returning nil. -/
def ResolveKey {T : Type} (impl : ObjectImpl T) (key : Key) (obj : T) : T × Option GoErr :=
  match impl.LoadKey with
  | some lk => lk obj key
  | none => (obj, none)

/-- The key-resolution loop shared by `BatchCreate` and `BatchPut`: calls
`ResolveKey` for each (key, object) pair; an error does not stop the loop,
and the error reported at the end is the one from the last failing call
(`loadKeyErr` is overwritten on each failure). -/
def resolveKeys {T : Type} (impl : ObjectImpl T) : List Key → List T → List T × Option GoErr
  | k :: ks, o :: os =>
    let r := ResolveKey impl k o
    let rest := resolveKeys impl ks os
    (r.1 :: rest.1, match rest.2 with | some e2 => some e2 | none => r.2)
  | _, os => (os, none)

/-- The `merr[0]` unwrap applied when a returned error is a
`datastore.MultiError`. Indexing an empty `MultiError` panics in Go; the
model returns the empty wrapper unchanged (the case is never reached in the
claims, which concern one-element multi-errors). -/
def unwrapMultiErr : GoErr → GoErr
  | .multi (e :: _) => e
  | e => e

/-- `Get` retrieves a single entity: derives the key and performs the client
point lookup (`db.Client.Get`, an external-store oracle `clientGet` here,
returning the populated value and an optional error). A `MultiError`
returned by `BuildKey` is unwrapped to its first element before being
returned. -/
def Get {T : Type} (db : DSEnt T) (impl : ObjectImpl T)
    (clientGet : Key → T → T × Option GoErr) (obj : T) : T × Option GoErr :=
  match impl.BuildKey obj db.nspace with
  | .error err => (obj, some (unwrapMultiErr err))
  | .ok key => clientGet key obj

/-- `BatchGetTx` retrieves multiple entities within a transaction: builds the
keys, then calls `tx.GetMulti(keys, objs)`, returning the populated objects
and any error. -/
def BatchGetTx {T : Type} (db : DSEnt T) (impl : ObjectImpl T) (st : TxStore T)
    (objs : List T) : List T × Option GoErr :=
  match buildKeys db impl objs with
  | .error e => (objs, some e)
  | .ok keys => st.txGetMulti keys objs

/-- `GetTx` retrieves a single entity within a transaction through
`BatchGetTx` on the singleton slice. On an error the Go code unwraps a
`datastore.MultiError` to `merr[0]` and returns `obj` — which aliases
`objs[0]` because `T` is a pointer type populated in place, rendered here as
`objs.headD obj`. On success it returns `objs[0]`. -/
def GetTx {T : Type} (db : DSEnt T) (impl : ObjectImpl T) (st : TxStore T)
    (obj : T) : T × Option GoErr :=
  match BatchGetTx db impl st [obj] with
  | (objs, some e) => (objs.headD obj, some (unwrapMultiErr e))
  | (objs, none) => (objs.headD obj, none)

/-- `BatchCreateTx` creates multiple entities within a transaction: builds
the keys, builds one insert mutation per object, and queues them with
`tx.Mutate`. On any error it returns nil pending keys (here `[]`) and the
objects unchanged. -/
def BatchCreateTx {T : Type} (db : DSEnt T) (impl : ObjectImpl T) (st : TxStore T)
    (objs : List T) : List PendingKey × List T × Option GoErr :=
  match buildKeys db impl objs with
  | .error e => ([], objs, some e)
  | .ok keys =>
    match st.txMutate (List.zipWith (fun k o => Mutation.mk .insert k o) keys objs) with
    | .error e => ([], objs, some e)
    | .ok pks => (pks, objs, none)

/-- `CreateTx` creates a single entity within a transaction through
`BatchCreateTx` on the singleton slice, returning `pks[0]` and `objs[0]` on
success (`pks.head?` renders the returned `*datastore.PendingKey`, which is
nil — `none` — on the error path). -/
def CreateTx {T : Type} (db : DSEnt T) (impl : ObjectImpl T) (st : TxStore T)
    (obj : T) : Option PendingKey × T × Option GoErr :=
  match BatchCreateTx db impl st [obj] with
  | (_, _, some e) => (none, obj, some e)
  | (pks, objs, none) => (pks.head?, objs.headD obj, none)

/-- `BatchCreate` creates multiple entities inside an implicit transaction:
runs `BatchCreateTx` in `RunInTransaction` (whose commit outcome is the
oracle `commitErr` and whose commit-time pending-key resolution is the
oracle `cmtKey`, modelling `cmt.Key`), then — only after a successful
commit — resolves each concrete key into its entity via `ResolveKey`,
keeping the keys and entities even when some hooks fail and reporting the
last hook failure, if any, as the returned error. -/
def BatchCreate {T : Type} (db : DSEnt T) (impl : ObjectImpl T) (st : TxStore T)
    (commitErr : Option GoErr) (cmtKey : PendingKey → Key)
    (objs : List T) : List Key × List T × Option GoErr :=
  match BatchCreateTx db impl st objs with
  | (_, objs, some e) => ([], objs, some e)
  | (pks, objs, none) =>
    match commitErr with
    | some e => ([], objs, some e)
    | none =>
      let keys := pks.map cmtKey
      let r := resolveKeys impl keys objs
      (keys, r.1, r.2)

/-- `BatchPutTx` saves multiple entities within a transaction: same shape as
`BatchCreateTx` but with upsert mutations. -/
def BatchPutTx {T : Type} (db : DSEnt T) (impl : ObjectImpl T) (st : TxStore T)
    (objs : List T) : List PendingKey × List T × Option GoErr :=
  match buildKeys db impl objs with
  | .error e => ([], objs, some e)
  | .ok keys =>
    match st.txMutate (List.zipWith (fun k o => Mutation.mk .upsert k o) keys objs) with
    | .error e => ([], objs, some e)
    | .ok pks => (pks, objs, none)

/-- `PutTx` saves a single entity within a transaction through `BatchPutTx`
on the singleton slice, mirroring `CreateTx`. -/
def PutTx {T : Type} (db : DSEnt T) (impl : ObjectImpl T) (st : TxStore T)
    (obj : T) : Option PendingKey × T × Option GoErr :=
  match BatchPutTx db impl st [obj] with
  | (_, _, some e) => (none, obj, some e)
  | (pks, objs, none) => (pks.head?, objs.headD obj, none)

/-- Overwrites the first `new.length` entries of `base` with `new`,
modelling the loop `for i, pk := range pks { keys[i] = cmt.Key(pk) }` of
`BatchPut` (a `new` longer than `base` would panic in Go; the model
truncates, and the case is excluded by hypothesis where it matters). -/
def overwriteKeys (base new : List Key) : List Key :=
  new.take base.length ++ base.drop new.length

/-- `BatchPut` saves multiple entities inside an implicit transaction:
builds the keys up front, runs `BatchPutTx` in `RunInTransaction`, then on a
successful commit overwrites each key with the commit-resolved one and runs
the same best-effort `ResolveKey` loop as `BatchCreate`. -/
def BatchPut {T : Type} (db : DSEnt T) (impl : ObjectImpl T) (st : TxStore T)
    (commitErr : Option GoErr) (cmtKey : PendingKey → Key)
    (objs : List T) : List Key × List T × Option GoErr :=
  match buildKeys db impl objs with
  | .error e => ([], objs, some e)
  | .ok keys =>
    match BatchPutTx db impl st objs with
    | (_, objs, some e) => ([], objs, some e)
    | (pks, objs, none) =>
      match commitErr with
      | some e => ([], objs, some e)
      | none =>
        let keys := overwriteKeys keys (pks.map cmtKey)
        let r := resolveKeys impl keys objs
        (keys, r.1, r.2)

/-- `BatchDeleteTx` deletes multiple entities in a transaction: builds the
keys and calls `tx.DeleteMulti`. -/
def BatchDeleteTx {T : Type} (db : DSEnt T) (impl : ObjectImpl T) (st : TxStore T)
    (objs : List T) : Option GoErr :=
  match buildKeys db impl objs with
  | .error e => some e
  | .ok keys => st.txDeleteMulti keys

/-- `DeleteTx` deletes a single entity in a transaction via `BatchDeleteTx`
on the singleton slice. -/
def DeleteTx {T : Type} (db : DSEnt T) (impl : ObjectImpl T) (st : TxStore T)
    (obj : T) : Option GoErr :=
  BatchDeleteTx db impl st [obj]

/-- The outcome of an Update-protocol run: the returned object and error,
together with the list of mutations issued to the transaction via
`tx.Mutate` during the run. -/
structure UpdateResult (T : Type) where
  obj : T
  err : Option GoErr
  muts : List (Mutation T)

/-- The tail of `UpdateTx` shared by the found and created paths (source
lines 361–383): run the update function; on an `ErrUpdateAbort`-satisfying
error return the value with a nil error and no mutation; on another error
propagate it; otherwise re-derive the key, reject a changed key with
`ErrKeyChanged`, and issue the single insert (if `created`) or
update-existing mutation. -/
def updateTxFinish {T : Type} (db : DSEnt T) (impl : ObjectImpl T) (st : TxStore T)
    (key : Key) (obj : T) (created : Bool)
    (updateFunc : T → T × Option GoErr) : UpdateResult T :=
  match updateFunc obj with
  | (v, some e) =>
    if errorsIsUpdateAbort e then ⟨v, none, []⟩ else ⟨v, some e, []⟩
  | (v, none) =>
    match impl.BuildKey v db.nspace with
    | .error e => ⟨v, some e, []⟩
    | .ok newKey =>
      if !cmpKey key newKey then ⟨v, some .keyChanged, []⟩
      else
        let m := if created then Mutation.mk MutOp.insert key v
                 else Mutation.mk MutOp.update key v
        match st.txMutate [m] with
        | .error e => ⟨v, some e, [m]⟩
        | .ok _ => ⟨v, none, [m]⟩

/-- `UpdateTx` updates an entity within a transaction: derive the key, read
the current value with `tx.Get`; on `datastore.ErrNoSuchEntity` either fail
with that error (no `createFunc`) or run the create fallback and reject a
relocated key with `ErrKeyChanged`, marking the record created; then run the
shared tail `updateTxFinish`. -/
def UpdateTx {T : Type} (db : DSEnt T) (impl : ObjectImpl T) (st : TxStore T)
    (obj : T) (updateFunc : T → T × Option GoErr)
    (createFunc : Option (T → T × Option GoErr)) : UpdateResult T :=
  match impl.BuildKey obj db.nspace with
  | .error err => ⟨obj, some err, []⟩
  | .ok key =>
    match st.txGet key with
    | .error .noSuchEntity =>
      match createFunc with
      | none => ⟨obj, some .noSuchEntity, []⟩
      | some cf =>
        match cf obj with
        | (v, some e) => ⟨v, some e, []⟩
        | (v, none) =>
          match impl.BuildKey v db.nspace with
          | .error e => ⟨v, some e, []⟩
          | .ok newKey =>
            if !cmpKey key newKey then ⟨v, some .keyChanged, []⟩
            else updateTxFinish db impl st key v true updateFunc
    | .error e => ⟨obj, some e, []⟩
    | .ok loaded => updateTxFinish db impl st key loaded false updateFunc

/-- `Update` runs `UpdateTx` inside `RunInTransaction`: the body's error is
returned as-is (the transaction is then rolled back, so no queued mutation
takes effect); on a nil body error the commit outcome `commitErr` decides
the result. The `muts` field carries the mutations that take effect. -/
def Update {T : Type} (db : DSEnt T) (impl : ObjectImpl T) (st : TxStore T)
    (commitErr : Option GoErr) (obj : T)
    (updateFunc : T → T × Option GoErr)
    (createFunc : Option (T → T × Option GoErr)) : UpdateResult T :=
  let r := UpdateTx db impl st obj updateFunc createFunc
  match r.err with
  | some e => ⟨r.obj, some e, []⟩
  | none =>
    match commitErr with
    | some e => ⟨r.obj, some e, []⟩
    | none => r

/-! ### Concrete fixtures used by witnesses and counterexamples -/

/-- A session over entity type `Int` in namespace `Test` (fixture). -/
def dbInt : DSEnt Int := ⟨"Test", "Test"⟩

/-- An `Int` entity implementation whose key is the entity value itself and
which has no `KeyLoader` hook (fixture). -/
def implInt : ObjectImpl Int :=
  ⟨fun o ns => .ok (Key.mk ns "Test" o "" none), none⟩

/-- A store oracle: every read finds value `5`, every batched read populates
nothing, every mutation is accepted with one pending key per mutation, every
delete succeeds (fixture). -/
def stInt : TxStore Int where
  txGet := fun _ => .ok 5
  txGetMulti := fun _ objs => (objs, none)
  txMutate := fun muts => .ok ((List.range muts.length).map PendingKey.mk)
  txDeleteMulti := fun _ => none

/-- A store oracle whose reads report `datastore.ErrNoSuchEntity` (fixture). -/
def stIntMissing : TxStore Int where
  txGet := fun _ => .error .noSuchEntity
  txGetMulti := fun _ objs => (objs, some .noSuchEntity)
  txMutate := fun muts => .ok ((List.range muts.length).map PendingKey.mk)
  txDeleteMulti := fun _ => none

/-- A store oracle whose batched reads report a one-element
`datastore.MultiError` (fixture). -/
def stIntMultiErr : TxStore Int where
  txGet := fun _ => .ok 5
  txGetMulti := fun _ objs => (objs, some (.multi [.other "boom"]))
  txMutate := fun muts => .ok ((List.range muts.length).map PendingKey.mk)
  txDeleteMulti := fun _ => none

/-- An `Int` entity implementation whose `LoadKey` hook records the key's ID
into the entity (fixture). -/
def hookLoad : Int → Key → Int × Option GoErr :=
  fun _ k => (match k with | .mk _ _ i _ _ => i, none)

/-- `implInt` with the `hookLoad` hook attached (fixture). -/
def implIntHook : ObjectImpl Int :=
  ⟨fun o ns => .ok (Key.mk ns "Test" o "" none), some hookLoad⟩

/-- A concrete key used by witnesses (fixture). -/
def keyA : Key := Key.mk "Test" "Test" 7 "" none

/-- An `Int` entity implementation whose `BuildKey` fails with a one-element
`datastore.MultiError` (fixture). -/
def implIntBadKey : ObjectImpl Int :=
  ⟨fun _ _ => .error (.multi [.other "bad"]), none⟩

/-- A key whose parent level carries a different namespace than the leaf
(fixture). -/
def mixedNsKey : Key :=
  Key.mk "Test" "Test" 1 "" (some (Key.mk "Other" "P" 2 "" none))

/-- An `Int` entity implementation whose `BuildKey` ignores the supplied
namespace and returns `mixedNsKey` unchanged (fixture). -/
def implMixedNs : ObjectImpl Int := ⟨fun _ _ => .ok mixedNsKey, none⟩

/-- A constant uniformly-namespaced key (fixture). -/
def uniKey : Key := Key.mk "Test" "Test" 1 "" none

/-- An `Int` entity implementation whose `BuildKey` always returns `uniKey`
(fixture). -/
def implConstUniform : ObjectImpl Int := ⟨fun _ _ => .ok uniKey, none⟩

/-- An `Int` entity implementation whose `LoadKey` hook fails when the key's
ID is zero (fixture). -/
def implHookFail : ObjectImpl Int :=
  ⟨fun o ns => .ok (Key.mk ns "Test" o "" none),
   some (fun o k => (o, match k with
     | .mk _ _ i _ _ => if i == 0 then some (.other "resolve") else none))⟩

/-- A commit-time pending-key resolver mapping each pending key's token to a
concrete key with that ID (fixture, modelling `cmt.Key`). -/
def cmtKey0 : PendingKey → Key :=
  fun pk => Key.mk "Test" "Test" (Int.ofNat pk.token) "" none

/-- The last non-nil entry of a list of optional errors: the value left in a
`loadKeyErr` variable overwritten by every failing iteration of a loop. -/
def lastSome : List (Option GoErr) → Option GoErr
  | [] => none
  | e :: rest =>
    match lastSome rest with
    | some x => some x
    | none => e

/-- The per-entity key-resolution-hook outcomes for paired keys and
objects. -/
def resolveErrs {T : Type} (impl : ObjectImpl T) (keys : List Key) (objs : List T) :
    List (Option GoErr) :=
  (keys.zip objs).map (fun p => (ResolveKey impl p.1 p.2).2)

/-! ### Helper lemmas -/

theorem Key.chain_ne_nil (k : Key) : k.chain ≠ [] := by
  cases k with
  | mk ns kd i n p => cases p <;> simp [Key.chain]

theorem cmpKey_iff_chain : ∀ (a b : Key), (cmpKey a b = true ↔ a.chain = b.chain) := by
  have H : ∀ (m : Nat) (a b : Key), a.depth ≤ m →
      (cmpKey a b = true ↔ a.chain = b.chain) := by
    intro m
    induction m with
    | zero =>
      intro a b h
      cases a with
      | mk ns k i nm p => cases p <;> simp [Key.depth] at h
    | succ m ih =>
      intro a b h
      cases a with
      | mk ns k i nm p =>
        cases b with
        | mk ns' k' i' nm' p' =>
          cases p with
          | none =>
            cases p' with
            | none => simp [cmpKey, Key.chain]
            | some r =>
              simp [cmpKey, Key.chain]
              intro _ _ _ _ hc
              exact Key.chain_ne_nil r hc
          | some l =>
            cases p' with
            | none =>
              simp [cmpKey, Key.chain]
              intro _ _ _ _ hc
              exact Key.chain_ne_nil l hc
            | some r =>
              have hd : l.depth ≤ m := by
                simp [Key.depth] at h; omega
              have := ih l r hd
              simp [cmpKey, Key.chain, this]
              aesop
  intro a b
  exact H a.depth a b le_rfl

theorem Key.chain_addAncestor :
    ∀ (a anc : Key), (a.addAncestor anc).chain = a.chain ++ anc.chain := by
  have H : ∀ (m : Nat) (a anc : Key), a.depth ≤ m →
      (a.addAncestor anc).chain = a.chain ++ anc.chain := by
    intro m
    induction m with
    | zero =>
      intro a anc h
      cases a with
      | mk ns k i nm p => cases p <;> simp [Key.depth] at h
    | succ m ih =>
      intro a anc h
      cases a with
      | mk ns k i nm p =>
        cases p with
        | none => simp [Key.addAncestor, Key.chain]
        | some q =>
          have hd : q.depth ≤ m := by
            simp [Key.depth] at h; omega
          simp [Key.addAncestor, Key.chain, ih q anc hd]
  intro a anc
  exact H a.depth a anc le_rfl

/-! ### Claim theorems -/

/-- C3: `cmpKey a b` is true iff walking both ancestor chains leaf-to-root
every level agrees on Namespace, Kind, ID and Name and both chains reach a
nil parent at the same depth (i.e. the chains are equal as lists); in
particular `cmpKey k k` is true for every key, and `cmpKey` is false when
exactly one side has an extra ancestor level. -/
theorem cmpKey_correct (a b : Key) :
    (cmpKey a b = true ↔ a.chain = b.chain)
    ∧ cmpKey a a = true
    ∧ (∀ anc : Key, cmpKey a (a.addAncestor anc) = false
        ∧ cmpKey (a.addAncestor anc) a = false) := by
  refine ⟨cmpKey_iff_chain a b, (cmpKey_iff_chain a a).mpr rfl, ?_⟩
  intro anc
  have hne : (a.addAncestor anc).chain ≠ a.chain := by
    rw [Key.chain_addAncestor]
    intro h
    have hlen := congrArg List.length h
    simp at hlen
    exact Key.chain_ne_nil anc hlen
  constructor
  · rw [Bool.eq_false_iff]
    intro hcmp
    exact hne ((cmpKey_iff_chain _ _).mp hcmp).symm
  · rw [Bool.eq_false_iff]
    intro hcmp
    exact hne ((cmpKey_iff_chain _ _).mp hcmp)

/-- C9: each single-entity transactional operation is its batch variant on
the singleton list: `CreateTx` and `PutTx` return the first pending key,
first object, and the error of the batch call; `GetTx` returns the first
object and the batch error with the `MultiError` unwrap applied; `DeleteTx`
is exactly `BatchDeleteTx` on the singleton. -/
theorem singleton_tx_ops_refine_batch {T : Type} (db : DSEnt T) (impl : ObjectImpl T)
    (st : TxStore T) (obj : T) :
    CreateTx db impl st obj
      = ((BatchCreateTx db impl st [obj]).1.head?,
         (BatchCreateTx db impl st [obj]).2.1.headD obj,
         (BatchCreateTx db impl st [obj]).2.2)
    ∧ PutTx db impl st obj
      = ((BatchPutTx db impl st [obj]).1.head?,
         (BatchPutTx db impl st [obj]).2.1.headD obj,
         (BatchPutTx db impl st [obj]).2.2)
    ∧ GetTx db impl st obj
      = ((BatchGetTx db impl st [obj]).1.headD obj,
         Option.map unwrapMultiErr (BatchGetTx db impl st [obj]).2)
    ∧ DeleteTx db impl st obj = BatchDeleteTx db impl st [obj] := by
  refine ⟨?_, ?_, ?_, rfl⟩
  · unfold CreateTx BatchCreateTx
    cases hb : buildKeys db impl [obj] with
    | error e => simp
    | ok keys =>
      cases hm : st.txMutate (List.zipWith (fun k o => Mutation.mk .insert k o) keys [obj]) with
      | error e => simp [hm]
      | ok pks => simp [hm]
  · unfold PutTx BatchPutTx
    cases hb : buildKeys db impl [obj] with
    | error e => simp
    | ok keys =>
      cases hm : st.txMutate (List.zipWith (fun k o => Mutation.mk .upsert k o) keys [obj]) with
      | error e => simp [hm]
      | ok pks => simp [hm]
  · rcases hc : BatchGetTx db impl st [obj] with ⟨objs, err⟩
    cases err with
    | none => simp [GetTx, hc]
    | some e => simp [GetTx, hc]

/-- C10: `ResolveKey` is a no-op returning nil when the entity type does not
implement the optional `datastore.KeyLoader` hook, and returns exactly the
outcome of the object's `LoadKey` applied to the key when it does. -/
theorem resolveKey_hook_dispatch {T : Type} (impl : ObjectImpl T) (key : Key) (obj : T) :
    (impl.LoadKey = none → ResolveKey impl key obj = (obj, none))
    ∧ (∀ lk, impl.LoadKey = some lk → ResolveKey impl key obj = lk obj key) := by
  constructor
  · intro h; simp [ResolveKey, h]
  · intro lk h; simp [ResolveKey, h]

theorem resolveKey_hook_dispatch_witness :
    ResolveKey implInt keyA 3 = (3, none)
    ∧ ResolveKey implIntHook keyA 3 = hookLoad 3 keyA :=
  ⟨(resolveKey_hook_dispatch implInt keyA 3).1 rfl,
   (resolveKey_hook_dispatch implIntHook keyA 3).2 hookLoad rfl⟩

/-- C1: whenever the create-fallback or the update function successfully
returns a value whose key, re-derived via `BuildKey`, is not
`cmpKey`-equivalent to the originally derived key, `UpdateTx` — and thus
`Update` — fails with `ErrKeyChanged` and no mutation is issued in the
transaction: (a) the fallback relocates the record; (b) the update function
relocates it after a successful read; (c) the update function relocates it
after the fallback ran key-stably. -/
theorem updateTx_key_changed {T : Type} (db : DSEnt T) (impl : ObjectImpl T)
    (st : TxStore T) (commitErr : Option GoErr) (obj : T)
    (updateFunc : T → T × Option GoErr) (cf : T → T × Option GoErr)
    (key : Key) (hbk : impl.BuildKey obj db.nspace = .ok key) :
    (∀ v newKey, st.txGet key = .error .noSuchEntity → cf obj = (v, none) →
      impl.BuildKey v db.nspace = .ok newKey → cmpKey key newKey = false →
      UpdateTx db impl st obj updateFunc (some cf) = ⟨v, some .keyChanged, []⟩
      ∧ Update db impl st commitErr obj updateFunc (some cf) = ⟨v, some .keyChanged, []⟩)
    ∧ (∀ loaded v newKey (cfOpt : Option (T → T × Option GoErr)),
      st.txGet key = .ok loaded → updateFunc loaded = (v, none) →
      impl.BuildKey v db.nspace = .ok newKey → cmpKey key newKey = false →
      UpdateTx db impl st obj updateFunc cfOpt = ⟨v, some .keyChanged, []⟩
      ∧ Update db impl st commitErr obj updateFunc cfOpt = ⟨v, some .keyChanged, []⟩)
    ∧ (∀ v1 k1 v newKey, st.txGet key = .error .noSuchEntity → cf obj = (v1, none) →
      impl.BuildKey v1 db.nspace = .ok k1 → cmpKey key k1 = true →
      updateFunc v1 = (v, none) →
      impl.BuildKey v db.nspace = .ok newKey → cmpKey key newKey = false →
      UpdateTx db impl st obj updateFunc (some cf) = ⟨v, some .keyChanged, []⟩
      ∧ Update db impl st commitErr obj updateFunc (some cf) = ⟨v, some .keyChanged, []⟩) := by
  refine ⟨?_, ?_, ?_⟩
  · intro v newKey hget hcf hbk2 hcmp
    have h1 : UpdateTx db impl st obj updateFunc (some cf) = ⟨v, some .keyChanged, []⟩ := by
      simp [UpdateTx, hbk, hget, hcf, hbk2, hcmp]
    exact ⟨h1, by simp [Update, h1]⟩
  · intro loaded v newKey cfOpt hget huf hbk2 hcmp
    have h1 : UpdateTx db impl st obj updateFunc cfOpt = ⟨v, some .keyChanged, []⟩ := by
      simp [UpdateTx, updateTxFinish, hbk, hget, huf, hbk2, hcmp]
    exact ⟨h1, by simp [Update, h1]⟩
  · intro v1 k1 v newKey hget hcf hbk1 hcmp1 huf hbk2 hcmp
    have h1 : UpdateTx db impl st obj updateFunc (some cf) = ⟨v, some .keyChanged, []⟩ := by
      simp [UpdateTx, updateTxFinish, hbk, hget, hcf, hbk1, hcmp1, huf, hbk2, hcmp]
    exact ⟨h1, by simp [Update, h1]⟩

theorem updateTx_key_changed_witness :
    UpdateTx dbInt implInt stIntMissing 1 (fun o => (o, none)) (some (fun _ => (2, none)))
      = ⟨2, some .keyChanged, []⟩ :=
  (((updateTx_key_changed dbInt implInt stIntMissing none 1 (fun o => (o, none))
      (fun _ => (2, none)) (Key.mk "Test" "Test" 1 "" none) rfl).1
    2 (Key.mk "Test" "Test" 2 "" none) rfl rfl rfl (by decide))).1

/-- C2: an update function returning an error satisfying
`errors.Is(err, ErrUpdateAbort)` makes `UpdateTx` return the function's
value together with a nil error, and no mutation is issued — both on the
found path and on the create-fallback path. -/
theorem updateTx_abort_noop {T : Type} (db : DSEnt T) (impl : ObjectImpl T)
    (st : TxStore T) (obj : T) (updateFunc : T → T × Option GoErr)
    (key : Key) (hbk : impl.BuildKey obj db.nspace = .ok key) :
    (∀ loaded v e (cfOpt : Option (T → T × Option GoErr)),
      st.txGet key = .ok loaded → updateFunc loaded = (v, some e) →
      errorsIsUpdateAbort e = true →
      UpdateTx db impl st obj updateFunc cfOpt = ⟨v, none, []⟩)
    ∧ (∀ cf v1 k1 v e, st.txGet key = .error .noSuchEntity → cf obj = (v1, none) →
      impl.BuildKey v1 db.nspace = .ok k1 → cmpKey key k1 = true →
      updateFunc v1 = (v, some e) → errorsIsUpdateAbort e = true →
      UpdateTx db impl st obj updateFunc (some cf) = ⟨v, none, []⟩) := by
  constructor
  · intro loaded v e cfOpt hget huf habort
    simp [UpdateTx, updateTxFinish, hbk, hget, huf, habort]
  · intro cf v1 k1 v e hget hcf hbk1 hcmp1 huf habort
    simp [UpdateTx, updateTxFinish, hbk, hget, hcf, hbk1, hcmp1, huf, habort]

theorem updateTx_abort_noop_witness :
    UpdateTx dbInt implInt stInt 1 (fun _ => (15, some .updateAbort)) none
      = ⟨15, none, []⟩ :=
  (updateTx_abort_noop dbInt implInt stInt 1 (fun _ => (15, some .updateAbort))
      (Key.mk "Test" "Test" 1 "" none) rfl).1 5 15 .updateAbort none rfl rfl rfl

/-- C5: when the transactional read reports not-found and no create-fallback
was supplied, `UpdateTx` returns the not-found error
(`ErrNotFound = datastore.ErrNoSuchEntity`), issues no mutation, and never
invokes the update function: the outcome is the same for every update
function. -/
theorem updateTx_notFound_noCreate {T : Type} (db : DSEnt T) (impl : ObjectImpl T)
    (st : TxStore T) (obj : T) (key : Key)
    (hbk : impl.BuildKey obj db.nspace = .ok key)
    (hget : st.txGet key = .error .noSuchEntity) :
    ∀ updateFunc : T → T × Option GoErr,
      UpdateTx db impl st obj updateFunc none = ⟨obj, some .noSuchEntity, []⟩ := by
  intro uf
  simp [UpdateTx, hbk, hget]

theorem updateTx_notFound_noCreate_witness :
    UpdateTx dbInt implInt stIntMissing 1 (fun o => (o + 9, none)) none
      = ⟨1, some .noSuchEntity, []⟩ :=
  updateTx_notFound_noCreate dbInt implInt stIntMissing 1
    (Key.mk "Test" "Test" 1 "" none) rfl rfl (fun o => (o + 9, none))

/-- C4 counterexample: a successful `UpdateTx` run (nil error) that issues
no mutation — the read finds the record and the update function signals
`ErrUpdateAbort`, so the run returns success with an empty mutation list,
refuting "exactly one mutation is issued in every successful run". -/
theorem updateTx_success_without_mutation :
    (UpdateTx dbInt implInt stInt 1 (fun o => (o, some .updateAbort)) none).err = none
    ∧ (UpdateTx dbInt implInt stInt 1 (fun o => (o, some .updateAbort)) none).muts = [] :=
  ⟨rfl, rfl⟩

theorem updateTxFinish_muts_le {T : Type} (db : DSEnt T) (impl : ObjectImpl T)
    (st : TxStore T) (key : Key) (obj : T) (created : Bool)
    (uf : T → T × Option GoErr) :
    (updateTxFinish db impl st key obj created uf).muts.length ≤ 1 := by
  rcases huf : uf obj with ⟨v, e⟩
  cases e with
  | some e2 =>
    by_cases h : errorsIsUpdateAbort e2 <;> simp [updateTxFinish, huf, h]
  | none =>
    cases hb : impl.BuildKey v db.nspace with
    | error e2 => simp [updateTxFinish, huf, hb]
    | ok newKey =>
      by_cases h : cmpKey key newKey
      · cases created with
        | false =>
          cases hm : st.txMutate [Mutation.mk MutOp.update key v] <;>
            simp [updateTxFinish, huf, hb, h, hm]
        | true =>
          cases hm : st.txMutate [Mutation.mk MutOp.insert key v] <;>
            simp [updateTxFinish, huf, hb, h, hm]
      · simp [updateTxFinish, huf, hb, h]

/-- C4 (amended): `UpdateTx` never issues more than one mutation, and in
every run that reaches the mutation step — the update function returned
without error and the re-derived key matched — exactly one mutation is
issued: an update-existing mutation when the read found the record (its
store failure, e.g. a concurrent delete, becomes the returned error), and
an insert when the read reported not-found and the create fallback ran. -/
theorem updateTx_single_mutation {T : Type} (db : DSEnt T) (impl : ObjectImpl T)
    (st : TxStore T) (obj : T) (updateFunc : T → T × Option GoErr) (key : Key)
    (hbk : impl.BuildKey obj db.nspace = .ok key) :
    (∀ (o : T) (uf : T → T × Option GoErr) (cfOpt : Option (T → T × Option GoErr)),
        (UpdateTx db impl st o uf cfOpt).muts.length ≤ 1)
    ∧ (∀ loaded v newKey (cfOpt : Option (T → T × Option GoErr)),
        st.txGet key = .ok loaded → updateFunc loaded = (v, none) →
        impl.BuildKey v db.nspace = .ok newKey → cmpKey key newKey = true →
        (UpdateTx db impl st obj updateFunc cfOpt).muts
            = [Mutation.mk MutOp.update key v]
        ∧ (UpdateTx db impl st obj updateFunc cfOpt).err
            = (match st.txMutate [Mutation.mk MutOp.update key v] with
               | .error e => some e
               | .ok _ => none))
    ∧ (∀ cf v1 k1 v newKey,
        st.txGet key = .error .noSuchEntity → cf obj = (v1, none) →
        impl.BuildKey v1 db.nspace = .ok k1 → cmpKey key k1 = true →
        updateFunc v1 = (v, none) →
        impl.BuildKey v db.nspace = .ok newKey → cmpKey key newKey = true →
        (UpdateTx db impl st obj updateFunc (some cf)).muts
            = [Mutation.mk MutOp.insert key v]
        ∧ (UpdateTx db impl st obj updateFunc (some cf)).err
            = (match st.txMutate [Mutation.mk MutOp.insert key v] with
               | .error e => some e
               | .ok _ => none)) := by
  refine ⟨?_, ?_, ?_⟩
  · intro o uf cfOpt
    unfold UpdateTx
    repeat' split
    all_goals (first | simp | apply updateTxFinish_muts_le)
  · intro loaded v newKey cfOpt hget huf hbk2 hcmp
    constructor
    · simp only [UpdateTx, updateTxFinish, hbk, hget, huf, hbk2, hcmp]
      cases hm : st.txMutate [Mutation.mk MutOp.update key v] <;> simp [hm]
    · simp only [UpdateTx, updateTxFinish, hbk, hget, huf, hbk2, hcmp]
      cases hm : st.txMutate [Mutation.mk MutOp.update key v] <;> simp [hm]
  · intro cf v1 k1 v newKey hget hcf hbk1 hcmp1 huf hbk2 hcmp
    constructor
    · simp only [UpdateTx, updateTxFinish, hbk, hget, hcf, hbk1, hcmp1, huf, hbk2, hcmp]
      cases hm : st.txMutate [Mutation.mk MutOp.insert key v] <;> simp [hm]
    · simp only [UpdateTx, updateTxFinish, hbk, hget, hcf, hbk1, hcmp1, huf, hbk2, hcmp]
      cases hm : st.txMutate [Mutation.mk MutOp.insert key v] <;> simp [hm]

theorem updateTx_single_mutation_witness :
    (UpdateTx dbInt implInt stInt 5 (fun o => (o, none)) none).muts
        = [Mutation.mk MutOp.update (Key.mk "Test" "Test" 5 "" none) 5]
    ∧ (UpdateTx dbInt implInt stInt 5 (fun o => (o, none)) none).err = none :=
  (updateTx_single_mutation dbInt implInt stInt 5 (fun o => (o, none))
      (Key.mk "Test" "Test" 5 "" none) rfl).2.1 5 5
      (Key.mk "Test" "Test" 5 "" none) none rfl rfl rfl (by decide)

/-- C6: a single-entity get unwraps a one-element `datastore.MultiError`
into its single contained error so the caller sees one plain error: `GetTx`
when the transactional batched store lookup reports it, and `Get` when key
derivation reports it. -/
theorem get_unwraps_single_multierror {T : Type} (db : DSEnt T) (impl : ObjectImpl T)
    (obj : T) (e : GoErr) :
    (∀ (st : TxStore T) (keys : List Key) (objs : List T),
      buildKeys db impl [obj] = .ok keys →
      st.txGetMulti keys [obj] = (objs, some (.multi [e])) →
      (GetTx db impl st obj).2 = some e)
    ∧ (∀ clientGet : Key → T → T × Option GoErr,
      impl.BuildKey obj db.nspace = .error (.multi [e]) →
      Get db impl clientGet obj = (obj, some e)) := by
  constructor
  · intro st keys objs hbk hget
    simp [GetTx, BatchGetTx, hbk, hget, unwrapMultiErr]
  · intro clientGet hbk
    simp [Get, hbk, unwrapMultiErr]

theorem get_unwraps_single_multierror_witness :
    (GetTx dbInt implInt stIntMultiErr 3).2 = some (.other "boom")
    ∧ Get dbInt implIntBadKey (fun _ o => (o, none)) 3 = (3, some (.other "bad")) :=
  ⟨(get_unwraps_single_multierror dbInt implInt 3 (.other "boom")).1 stIntMultiErr
      [Key.mk "Test" "Test" 3 "" none] [3] rfl rfl,
   (get_unwraps_single_multierror dbInt implIntBadKey 3 (.other "bad")).2
      (fun _ o => (o, none)) rfl⟩

theorem Key.chain_SetNS : ∀ (k : Key) (ns : String),
    (SetNS k ns).chain = k.chain.map (fun l => (ns, l.2)) := by
  have H : ∀ (m : Nat) (k : Key) (ns : String), k.depth ≤ m →
      (SetNS k ns).chain = k.chain.map (fun l => (ns, l.2)) := by
    intro m
    induction m with
    | zero =>
      intro k ns h
      cases k with
      | mk a b c d p => cases p <;> simp [Key.depth] at h
    | succ m ih =>
      intro k ns h
      cases k with
      | mk a b c d p =>
        cases p with
        | none => simp [SetNS, Key.chain]
        | some q =>
          have hd : q.depth ≤ m := by
            simp [Key.depth] at h; omega
          simp [SetNS, Key.chain, ih q ns hd]
  intro k ns
  exact H k.depth k ns le_rfl

/-- C7 counterexample: the session's key derivation (`buildKeys`) returns
each entity's `BuildKey` result unchanged and never stamps the namespace
itself, so it can yield a key whose ancestor chain is not uniformly
namespaced: with `implMixedNs` (whose `BuildKey` never calls `SetNS`),
`buildKeys` returns `mixedNsKey`, whose parent level carries namespace
`Other` instead of the session namespace `Test`. -/
theorem buildKeys_not_ns_uniform :
    buildKeys dbInt implMixedNs [1] = .ok [mixedNsKey]
    ∧ mixedNsKey.nsUniform "Test" = false :=
  ⟨rfl, by decide⟩

/-- C7 (amended): `SetNS` stamps the namespace uniformly on the returned key
and on every ancestor in its parent chain, and the session's `buildKeys`
returns exactly the keys produced by each entity's own `BuildKey` without
stamping them itself; hence every key derived by the session is uniformly
namespaced whenever the entity's `BuildKey` establishes uniformity (for
example by calling `SetNS`, as the repository's entity types do). -/
theorem setNS_uniform_and_buildKeys_delegate {T : Type} :
    (∀ (k : Key) (ns : String), (SetNS k ns).nsUniform ns = true)
    ∧ (∀ (db : DSEnt T) (impl : ObjectImpl T) (objs : List T) (keys : List Key),
        buildKeys db impl objs = .ok keys →
        (∀ o k, impl.BuildKey o db.nspace = .ok k → k.nsUniform db.nspace = true) →
        ∀ k ∈ keys, k.nsUniform db.nspace = true) := by
  constructor
  · intro k ns
    simp [Key.nsUniform, Key.chain_SetNS, List.all_map, Function.comp]
  · intro db impl objs
    induction objs with
    | nil =>
      intro keys h hgood k hk
      simp [buildKeys] at h
      subst h
      simp at hk
    | cons o rest ih =>
      intro keys h hgood k hk
      cases hbo : impl.BuildKey o db.nspace with
      | error e => simp [buildKeys, hbo] at h
      | ok k0 =>
        cases hbr : buildKeys db impl rest with
        | error e => simp [buildKeys, hbo, hbr] at h
        | ok ks =>
          simp [buildKeys, hbo, hbr] at h
          subst h
          rcases List.mem_cons.mp hk with rfl | hk2
          · exact hgood o k hbo
          · exact ih ks hbr hgood k hk2

theorem setNS_uniform_and_buildKeys_delegate_witness :
    (SetNS mixedNsKey "Prod").nsUniform "Prod" = true
    ∧ ∀ k ∈ [uniKey], k.nsUniform "Test" = true := by
  constructor
  · exact (setNS_uniform_and_buildKeys_delegate (T := Int)).1 mixedNsKey "Prod"
  · refine (setNS_uniform_and_buildKeys_delegate (T := Int)).2 dbInt implConstUniform
      [1] [uniKey] rfl ?_
    intro o k h
    have h2 : uniKey = k := Except.ok.inj h
    rw [← h2]
    decide

theorem buildKeys_length {T : Type} (db : DSEnt T) (impl : ObjectImpl T) :
    ∀ (objs : List T) (keys : List Key),
      buildKeys db impl objs = .ok keys → keys.length = objs.length := by
  intro objs
  induction objs with
  | nil =>
    intro keys h
    simp [buildKeys] at h
    subst h
    rfl
  | cons o rest ih =>
    intro keys h
    cases hbo : impl.BuildKey o db.nspace with
    | error e => simp [buildKeys, hbo] at h
    | ok k0 =>
      cases hbr : buildKeys db impl rest with
      | error e => simp [buildKeys, hbo, hbr] at h
      | ok ks =>
        simp [buildKeys, hbo, hbr] at h
        subst h
        simp [ih ks hbr]

theorem resolveKeys_snd {T : Type} (impl : ObjectImpl T) :
    ∀ (keys : List Key) (os : List T),
      (resolveKeys impl keys os).2 = lastSome (resolveErrs impl keys os) := by
  intro keys
  induction keys with
  | nil => intro os; cases os <;> simp [resolveKeys, resolveErrs, lastSome]
  | cons k ks ih =>
    intro os
    cases os with
    | nil => simp [resolveKeys, resolveErrs, lastSome]
    | cons o os2 =>
      have ih2 := ih os2
      simp only [resolveErrs, List.zip] at ih2
      simp only [resolveKeys, resolveErrs, List.zip, List.zipWith, List.map_cons, lastSome]
      rw [← ih2]

theorem lastSome_none_of_all_none :
    ∀ (es : List (Option GoErr)), (∀ e ∈ es, e = none) → lastSome es = none := by
  intro es
  induction es with
  | nil => intro _; rfl
  | cons e rest ih =>
    intro h
    have he : e = none := h e (by simp)
    have hr : lastSome rest = none := ih (fun x hx => h x (by simp [hx]))
    simp [lastSome, hr, he]

/-- C8: when the implicit transaction of a non-transactional `BatchCreate`
or `BatchPut` commits successfully, the commit-resolved keys and the
entities are returned even if some per-entity key-resolution hooks fail;
the error returned is the hook error of the last entity whose hook failed
(`lastSome` of the per-entity outcomes), and `resolveKeys` reports nil when
every hook succeeds. -/
theorem batch_resolution_best_effort {T : Type} (db : DSEnt T) (impl : ObjectImpl T)
    (st : TxStore T) (cmtKey : PendingKey → Key) (objs : List T) :
    (∀ (keys0 : List Key) (pks : List PendingKey),
      buildKeys db impl objs = .ok keys0 →
      st.txMutate (List.zipWith (fun k o => Mutation.mk .insert k o) keys0 objs) = .ok pks →
      BatchCreate db impl st none cmtKey objs
        = (pks.map cmtKey,
           (resolveKeys impl (pks.map cmtKey) objs).1,
           lastSome (resolveErrs impl (pks.map cmtKey) objs)))
    ∧ (∀ (keys0 : List Key) (pks : List PendingKey),
      buildKeys db impl objs = .ok keys0 →
      st.txMutate (List.zipWith (fun k o => Mutation.mk .upsert k o) keys0 objs) = .ok pks →
      pks.length = objs.length →
      BatchPut db impl st none cmtKey objs
        = (pks.map cmtKey,
           (resolveKeys impl (pks.map cmtKey) objs).1,
           lastSome (resolveErrs impl (pks.map cmtKey) objs)))
    ∧ (∀ (keys : List Key) (os : List T),
        (∀ e ∈ resolveErrs impl keys os, e = none) →
        (resolveKeys impl keys os).2 = none) := by
  refine ⟨?_, ?_, ?_⟩
  · intro keys0 pks hbk hm
    simp [BatchCreate, BatchCreateTx, hbk, hm, resolveKeys_snd]
  · intro keys0 pks hbk hm hpks
    have hkl : keys0.length = objs.length := buildKeys_length db impl objs keys0 hbk
    have hlen : (pks.map cmtKey).length = keys0.length := by
      simp [hpks, hkl]
    have h1 : (pks.map cmtKey).take keys0.length = pks.map cmtKey := by
      rw [← hlen]
      exact List.take_length _
    have h2 : keys0.drop (pks.map cmtKey).length = [] := by
      rw [hlen]
      exact List.drop_length _
    have hover : overwriteKeys keys0 (pks.map cmtKey) = pks.map cmtKey := by
      rw [overwriteKeys, h1, h2, List.append_nil]
    simp [BatchPut, BatchPutTx, hbk, hm, hover, resolveKeys_snd]
  · intro keys os h
    rw [resolveKeys_snd]
    exact lastSome_none_of_all_none _ h

theorem batch_resolution_best_effort_witness :
    BatchCreate dbInt implHookFail stInt none cmtKey0 [10, 20]
      = ([Key.mk "Test" "Test" 0 "" none, Key.mk "Test" "Test" 1 "" none],
         [10, 20], some (.other "resolve")) :=
  ((batch_resolution_best_effort dbInt implHookFail stInt cmtKey0 [10, 20]).1
    [Key.mk "Test" "Test" 10 "" none, Key.mk "Test" "Test" 20 "" none]
    [PendingKey.mk 0, PendingKey.mk 1] rfl rfl).trans rfl
